import Mathlib

/-!
# Verification of `pyod/models/auto_encoder.py` (class `AutoEncoder`)

Shallow embedding of the AutoEncoder outlier detector.  Data matrices are
embedded as `List (List ℝ)` (rows of real-valued features; the Python code
uses float64 ndarrays).  Layer widths are natural numbers.  The Keras
training engine (`Sequential.fit` / `Sequential.predict`) is an opaque
external dependency: training is a parameter `train` mapping the layer-width
list and the training matrix to a trained row function, and inference
(`model_.predict`) applies that row function to each row independently,
which is exactly how a feed-forward `Dense`/`Dropout` stack evaluates a
batch.  The ambient NumPy global random state used by `np.random.shuffle`
is a parameter `shuf : Matrix → Matrix` (its net observable effect on the
shuffled buffer).

Python aliasing that matters and is embedded explicitly:
`__init__` stores the caller-supplied list twice *without copying*
(`self.hidden_neurons = hidden_neurons; self.hidden_neurons_ =
hidden_neurons`, lines 122–123), so `self.hidden_neurons`,
`self.hidden_neurons_` and the caller's own list are one Python object.
`fit` then executes `self.hidden_neurons_.insert(0, self.n_features_)`
(line 192) which therefore mutates all three, and the subsequent
`np.median(self.hidden_neurons)` (line 195) reads the *augmented* list.
The embedding models this single shared list by computing one augmented
list and exposing it as the post-fit content of every alias.
-/

namespace AutoEncoderModel

abbrev Row := List ℝ
abbrev Matrix := List Row

/-- Error taxonomy: each constructor corresponds to one `raise` site in the
Python code (all are `ValueError`s with distinct messages) or to an error
raised by a validation collaborator. -/
inductive Err where
  /-- the error "Hidden units should be symmetric" (auto_encoder.py line 139). -/
  | asymmetric
  /-- parameter out of bounds, raised by `check_parameter` (line 141). -/
  | paramOutOfBounds
  /-- malformed input matrix, raised by `check_array` (lines 171/221). -/
  | badInput
  /-- raised because `np.min` of an empty width list fails at line 189. -/
  | emptyWidths
  /-- the error "The number of neurons should not exceed the number of features"
  (lines 190–191). -/
  | minExceedsFeatures
  /-- raised by `check_is_fitted` (line 220) when `fit` has not completed. -/
  | notFitted
  /-- column count differs from the fitted `n_features_`; surfaced by
  `scaler_.transform` / `model_.predict` at score time. -/
  | shapeMismatch
  deriving DecidableEq, Repr

/-- Modelled from the spec: `check_parameter` lives in
`pyod/utils/utility.py`, which is not part of this source unit.  The spec
says the parameter validator, "given `(dropout_rate, lower_bound=0,
upper_bound=1)`, fails construction if out of bounds", with the bound
`dropout_rate ∈ [0, 1)` enforced at construction (`1.0` and `-0.1` must
fail, `0.0` and `0.99` must succeed): valid iff `lo ≤ x < hi`. -/
def check_parameter (x lo hi : ℚ) : Bool :=
  decide (lo ≤ x) && decide (x < hi)

/-- The constructor arguments of `AutoEncoder.__init__` that participate in
the dataflow of the verified properties.  `hidden_activation`,
`output_activation`, `loss`, `optimizer`, `epochs`, `batch_size`,
`l2_regularizer`, `validation_size`, `verbose`, `random_state` and
`contamination` are stored verbatim and only forwarded to the opaque Keras
engine or the external base detector, so they are absorbed into the opaque
`train` parameter below. -/
structure Config where
  hidden_neurons : List ℕ
  dropout_rate : ℚ
  preprocessing : Bool
  deriving Repr

/-- Per-feature state of sklearn's `StandardScaler` after `fit`:
`mean_` and `scale_` (std deviation, with zero variance replaced by 1,
sklearn's `_handle_zeros_in_scale`). -/
structure ScalerState where
  mean : Row
  scale : Row

/-- Arithmetic mean of a list of reals (one column of the training
matrix). -/
noncomputable def listMean (l : List ℝ) : ℝ := l.sum / l.length

/-- Population standard deviation (`ddof=0`, sklearn's choice) of one
column. -/
noncomputable def listStd (l : List ℝ) : ℝ :=
  Real.sqrt ((l.map (fun x => (x - listMean l) ^ 2)).sum / l.length)

/-- Values of column `j` of a matrix. -/
def colVals (X : Matrix) (j : ℕ) : List ℝ := X.map (fun r => r.getD j 0)

/-- embedding of `StandardScaler().fit(X)` with `f` features: per-column mean and scale,
where a zero standard deviation is replaced by 1. -/
noncomputable def scalerFit (X : Matrix) (f : ℕ) : ScalerState :=
  { mean := (List.range f).map (fun j => listMean (colVals X j))
    scale := (List.range f).map (fun j =>
      let s := listStd (colVals X j)
      if s = 0 then 1 else s) }

/-- embedding of `scaler_.transform` on one row: per-feature `(x - mean_) / scale_`. -/
noncomputable def transRow (st : ScalerState) (r : Row) : Row :=
  List.zipWith (fun x ms => (x - ms.1) / ms.2) r (st.mean.zip st.scale)

/-- Squared Euclidean distance between two aligned rows:
`np.sum(np.square(x - y))` along the feature axis. -/
def rowSqDiff (a b : Row) : ℝ :=
  (List.zipWith (fun x y => (x - y) ^ 2) a b).sum

/-- Modelled from the spec: `pairwise_distances_no_broadcast` lives in
`pyod/utils/stat_models.py`, which is not part of this source unit.  The
spec (§4.4 Scoring Engine) says: for each row, compute the Euclidean (L2)
distance between the reference row and its reconstruction — the square
root of the sum of squared per-feature differences — one nonnegative
scalar per row, row-wise without materialising an all-pairs matrix. -/
noncomputable def pairwise_distances_no_broadcast (X Y : Matrix) : List ℝ :=
  List.zipWith (fun a b => Real.sqrt (rowSqDiff a b)) X Y

/-- embedding of `np.median` on a list of widths (NumPy semantics: sort; odd length →
middle element, even length → arithmetic mean of the two middle elements).
Widths are naturals, the median is a rational (NumPy returns a float). -/
def insertSorted (x : ℕ) : List ℕ → List ℕ
  | [] => [x]
  | y :: ys => if x ≤ y then x :: y :: ys else y :: insertSorted x ys

def sortAsc (l : List ℕ) : List ℕ := l.foldr insertSorted []

def npMedian (l : List ℕ) : ℚ :=
  let s := sortAsc l
  if l.length % 2 = 1 then (s.getD (l.length / 2) 0 : ℚ)
  else (((s.getD (l.length / 2 - 1) 0 : ℚ)) + (s.getD (l.length / 2) 0 : ℚ)) / 2

/-- embedding of `np.min` of a width list (defined only for nonempty lists; `fit`
guards the empty case with `Err.emptyWidths`). -/
def npMin (l : List ℕ) : ℕ := l.foldr min (l.headD 0)

/-- embedding of `sklearn.utils.check_array`: the input must be a non-empty 2-D numeric
matrix with at least one column (rectangular rows).  Returns
`(n_samples, n_features)` on success. -/
def shapeOf (X : Matrix) : Option (ℕ × ℕ) :=
  match X with
  | [] => none
  | r :: rs =>
    if 0 < r.length ∧ rs.all (fun q => q.length = r.length)
    then some (X.length, r.length) else none

/-- Fitted state written by a successful `AutoEncoder.fit`. -/
structure Fitted where
  n_features_ : ℕ
  /-- attribute `self.scaler_`, set iff `preprocessing` is true. -/
  scaler_ : Option ScalerState
  /-- the trained Keras model, as the row function it computes; `predict`
  maps it over the rows of its input. -/
  netFun : Row → Row
  /-- attribute `self.hidden_neurons_` after the in-place `insert(0, n_features_)`. -/
  hidden_neurons_ : List ℕ
  /-- attribute `self.encoding_dim_` (line 195). -/
  encoding_dim_ : ℚ
  /-- attribute `self.compression_rate_` (line 196): Python `int // float` is
  floored division. -/
  compression_rate_ : ℤ
  /-- attribute `self.decision_scores_` (line 214). -/
  decision_scores_ : List ℝ

/-- A detector object: its constructor arguments and, after `fit`, the
fitted attributes (`model_`, `scaler_`, …).  `fitted = none` embeds the
state in which `check_is_fitted(self, ['model_', 'history_'])` fails. -/
structure AE where
  cfg : Config
  fitted : Option Fitted

/-- embedding of `AutoEncoder.__init__` (lines 115–141): store the configuration, check
the symmetry of `hidden_neurons` (line 138: `hidden_neurons ==
hidden_neurons[::-1]`), then bound-check `dropout_rate` (line 141). -/
def init (cfg : Config) : Except Err AE :=
  if cfg.hidden_neurons ≠ cfg.hidden_neurons.reverse then .error .asymmetric
  else if ¬ check_parameter cfg.dropout_rate 0 1 then .error .paramOutOfBounds
  else .ok { cfg := cfg, fitted := none }

/-- Result of a successful `fit`, including the post-call content of the
two caller-visible buffers that Python mutates or could mutate:
`callerWidths` is the content of the caller-supplied `hidden_neurons` list
after `fit` (one object with `self.hidden_neurons` and
`self.hidden_neurons_`, see the file comment), and `callerX` is the content
of the caller's data matrix after `fit`. -/
structure FitResult where
  det : AE
  callerWidths : List ℕ
  callerX : Matrix
  /-- the matrix passed to `model_.fit` at line 200 (the standardized,
  shuffled buffer `X_norm`). -/
  trainInput : Matrix

/-- embedding of `AutoEncoder.fit` (lines 169–217), for one fit call on a freshly
constructed detector.

* `train` is the opaque Keras engine: `_build_model` + `model_.fit`
  consume the augmented width list `hidden_neurons_` and the shuffled
  standardized matrix and yield a trained row function.
* `shuf` is the net effect of `np.random.shuffle` (line 186) on the buffer
  it is applied to.

Order of operations follows the source: `check_array` (171), shape read
(175), scaler fit + transform or `np.copy` (178–182), in-place shuffle of
`X_norm` (186) — the caller's `X` is *not* the shuffle target —
`np.min` width check (189–191), in-place `insert(0, n_features_)` into the
shared width list (192), median and compression rate from the (now
augmented, because aliased) `self.hidden_neurons` (195–196), training
(199–205), re-standardization of the original unshuffled `X` (208–211),
prediction and row-wise scoring (213–215). -/
noncomputable def fit (train : List ℕ → Matrix → (Row → Row))
    (shuf : Matrix → Matrix) (cfg : Config) (X : Matrix) :
    Except Err FitResult :=
  match shapeOf X with
  | none => .error .badInput
  | some (_, f) =>
    let scaler : Option ScalerState :=
      if cfg.preprocessing then some (scalerFit X f) else none
    let X_norm : Matrix :=
      match scaler with
      | some st => X.map (transRow st)
      | none => X
    let X_shuffled := shuf X_norm
    if cfg.hidden_neurons.isEmpty then .error .emptyWidths
    else if npMin cfg.hidden_neurons > f then .error .minExceedsFeatures
    else
      let widthsAug := f :: cfg.hidden_neurons
      let enc := npMedian widthsAug
      let comp : ℤ := ⌊(f : ℚ) / enc⌋
      let net := train widthsAug X_shuffled
      let X_norm2 : Matrix :=
        match scaler with
        | some st => X.map (transRow st)
        | none => X
      let scores := pairwise_distances_no_broadcast X_norm2 (X_norm2.map net)
      let fs : Fitted :=
        { n_features_ := f
          scaler_ := scaler
          netFun := net
          hidden_neurons_ := widthsAug
          encoding_dim_ := enc
          compression_rate_ := comp
          decision_scores_ := scores }
      let newCfg : Config := { cfg with hidden_neurons := widthsAug }
      .ok { det := { cfg := newCfg, fitted := some fs }
            callerWidths := widthsAug
            callerX := X
            trainInput := X_shuffled }

/-- embedding of `AutoEncoder.decision_function` (lines 219–230): `check_is_fitted`
(220), `check_array` (221), standardize with the stored scaler state or
copy (223–226), predict and return the row-wise distances (229–230).  The
column-count check is surfaced by `scaler_.transform` / `model_.predict`
on the fitted feature count. -/
noncomputable def decision_function (d : AE) (X : Matrix) :
    Except Err (List ℝ) :=
  match d.fitted with
  | none => .error .notFitted
  | some fs =>
    match shapeOf X with
    | none => .error .badInput
    | some (_, f) =>
      if f ≠ fs.n_features_ then .error .shapeMismatch
      else
        let X_norm : Matrix :=
          match fs.scaler_ with
          | some st => X.map (transRow st)
          | none => X
        .ok (pairwise_distances_no_broadcast X_norm (X_norm.map fs.netFun))

/-- The row-level normalization the detector applies before prediction:
`scaler_.transform` when a scaler was fitted (`preprocessing` true),
identity copy (`np.copy`) otherwise. -/
noncomputable def normRowOf (fs : Fitted) (r : Row) : Row :=
  match fs.scaler_ with
  | some st => transRow st r
  | none => r

/-- The per-row anomaly score of a fitted detector: L2 distance between the
normalized row and its reconstruction by the trained network. -/
noncomputable def scoreRow (fs : Fitted) (r : Row) : ℝ :=
  Real.sqrt (rowSqDiff (normRowOf fs r) (fs.netFun (normRowOf fs r)))

/-- The normalized matrix `fit` computes at lines 178–182 (and recomputes
at lines 208–211): standardized when `preprocessing`, a copy of `X`
otherwise. -/
noncomputable def fitNorm (cfg : Config) (X : Matrix) (f : ℕ) : Matrix :=
  if cfg.preprocessing then X.map (transRow (scalerFit X f)) else X

/-! ### Concrete inputs used by witnesses and counterexamples -/

/-- widths `[4, 8]` (not a palindrome), dropout 0.2. -/
def cfg48 : Config := ⟨[4, 8], 1/5, true⟩

/-- widths `[4, 4]`, dropout 0.2. -/
def cfg44 : Config := ⟨[4, 4], 1/5, true⟩

/-- widths `[2, 2]`, dropout 0.2, preprocessing on. -/
def cfg22 : Config := ⟨[2, 2], 1/5, true⟩

/-- widths `[1, 3, 1]` (palindromic, median 1), dropout 0.2. -/
def cfg131 : Config := ⟨[1, 3, 1], 1/5, true⟩

/-- the default widths `[64, 32, 32, 64]`, dropout 0.2. -/
def cfgDefault : Config := ⟨[64, 32, 32, 64], 1/5, true⟩

/-- a freshly constructed, unfitted detector with widths `[2, 2]`. -/
def ae22 : AE := ⟨cfg22, none⟩

/-- a fitted state over 1 feature with no scaler and the identity network
(used to instantiate score-time theorems at a concrete input). -/
def fsId : Fitted :=
  ⟨1, none, id, [1, 1, 1], 1, 1, []⟩

/-- a detector carrying `fsId`. -/
def aeFittedId : AE := ⟨cfg22, some fsId⟩

/-! ### Helper lemmas -/

theorem pdnb_map_self (M : Matrix) (g : Row → Row) :
    pairwise_distances_no_broadcast M (M.map g) =
      M.map (fun r => Real.sqrt (rowSqDiff r (g r))) := by
  induction M with
  | nil => rfl
  | cons r t ih =>
    simp only [pairwise_distances_no_broadcast, List.map_cons,
      List.zipWith_cons_cons, List.cons.injEq]
    exact ⟨trivial, ih⟩

theorem shapeOf_of_rect (X : Matrix) (f : ℕ) (hne : X ≠ [])
    (hf : 0 < f) (hrect : ∀ r ∈ X, r.length = f) :
    shapeOf X = some (X.length, f) := by
  cases X with
  | nil => exact absurd rfl hne
  | cons r rs =>
    have hr : r.length = f := hrect r (List.mem_cons_self r rs)
    have htl : ∀ q ∈ rs, q.length = f := fun q hq =>
      hrect q (List.mem_cons_of_mem r hq)
    simp [shapeOf, hr, hf]
    exact htl

theorem decision_function_eq_map (d : AE) (fs : Fitted) (X : Matrix)
    (n : ℕ) (hfit : d.fitted = some fs)
    (hs : shapeOf X = some (n, fs.n_features_)) :
    decision_function d X = .ok (X.map (scoreRow fs)) := by
  simp only [decision_function, hfit, hs]
  rw [if_neg (fun h => h rfl)]
  cases hsc : fs.scaler_ with
  | none =>
    simp only [hsc, pdnb_map_self]
    have hfun : (fun r => Real.sqrt (rowSqDiff r (fs.netFun r))) = scoreRow fs := by
      funext r
      simp [scoreRow, normRowOf, hsc]
    rw [hfun]
  | some st =>
    simp only [hsc]
    rw [pdnb_map_self, List.map_map]
    have hfun : ((fun r => Real.sqrt (rowSqDiff r (fs.netFun r))) ∘ transRow st) =
        scoreRow fs := by
      funext r
      simp [scoreRow, normRowOf, hsc, Function.comp]
    rw [hfun]

/-- Elimination principle for a successful `fit`: reads every field of the
result off the source code's `.ok` branch. -/
theorem fit_ok_spec (train : List ℕ → Matrix → (Row → Row))
    (shuf : Matrix → Matrix) (cfg : Config) (X : Matrix) (n f : ℕ)
    (r : FitResult) (hs : shapeOf X = some (n, f))
    (hfit : fit train shuf cfg X = .ok r) :
    r.callerX = X ∧
    r.callerWidths = f :: cfg.hidden_neurons ∧
    r.trainInput = shuf (fitNorm cfg X f) ∧
    r.det.cfg.hidden_neurons = f :: cfg.hidden_neurons ∧
    ∃ fs, r.det.fitted = some fs ∧
      fs.n_features_ = f ∧
      fs.scaler_ = (if cfg.preprocessing then some (scalerFit X f) else none) ∧
      fs.hidden_neurons_ = f :: cfg.hidden_neurons ∧
      fs.encoding_dim_ = npMedian (f :: cfg.hidden_neurons) ∧
      fs.compression_rate_ = ⌊(f : ℚ) / npMedian (f :: cfg.hidden_neurons)⌋ ∧
      fs.netFun = train (f :: cfg.hidden_neurons) (shuf (fitNorm cfg X f)) ∧
      fs.decision_scores_ =
        pairwise_distances_no_broadcast (fitNorm cfg X f)
          ((fitNorm cfg X f).map fs.netFun) := by
  unfold fit at hfit
  rw [hs] at hfit
  by_cases hemp : cfg.hidden_neurons.isEmpty
  · simp [hemp] at hfit
  · by_cases hmin : npMin cfg.hidden_neurons > f
    · simp [hemp, hmin] at hfit
    · cases hp : cfg.preprocessing with
      | true =>
        simp only [hp, hemp, hmin, if_true, if_false, ite_false,
          Bool.false_eq_true, reduceIte] at hfit
        cases hfit
        refine ⟨rfl, rfl, ?_, rfl, ?_⟩
        · simp [fitNorm, hp]
        · exact ⟨_, rfl, rfl, by simp [hp], rfl, rfl, rfl,
            by simp [fitNorm, hp], by simp [fitNorm, hp]⟩
      | false =>
        simp only [hp, hemp, hmin, if_true, if_false, ite_false,
          Bool.false_eq_true, reduceIte] at hfit
        cases hfit
        refine ⟨rfl, rfl, ?_, rfl, ?_⟩
        · simp [fitNorm, hp]
        · exact ⟨_, rfl, rfl, by simp [hp], rfl, rfl, rfl,
            by simp [fitNorm, hp], by simp [fitNorm, hp]⟩

/-- A successful `fit` is possible exactly on the non-error path: shape ok,
nonempty width list, narrowest width within the feature count. -/
theorem fit_ok_of_valid (train : List ℕ → Matrix → (Row → Row))
    (shuf : Matrix → Matrix) (cfg : Config) (X : Matrix) (n f : ℕ)
    (hs : shapeOf X = some (n, f))
    (hemp : cfg.hidden_neurons.isEmpty = false)
    (hmin : ¬ npMin cfg.hidden_neurons > f) :
    ∃ r, fit train shuf cfg X = .ok r := by
  unfold fit
  rw [hs]
  simp only [hemp, hmin, Bool.false_eq_true, if_false, ite_false, reduceIte]
  exact ⟨_, rfl⟩

theorem getD_map_of_lt {α β : Type} (l : List α) (g : α → β) (i : ℕ)
    (h : i < l.length) (dβ : β) (dα : α) :
    (l.map g).getD i dβ = g (l.getD i dα) := by
  rw [List.getD_eq_getElem?_getD, List.getElem?_map,
    List.getElem?_eq_getElem h, List.getD_eq_getElem?_getD,
    List.getElem?_eq_getElem h]
  rfl

theorem getD_ofFn {β : Type} {n : ℕ} (g : Fin n → β) (i : Fin n) (d : β) :
    (List.ofFn g).getD i.1 d = g i := by
  rw [List.getD_eq_getElem?_getD, List.getElem?_ofFn]
  simp [List.ofFnNthVal, i.isLt]

theorem getD_get {α : Type} (l : List α) (i : Fin l.length) (d : α) :
    l.getD i.1 d = l.get i := by
  rw [List.getD_eq_getElem?_getD, List.getElem?_eq_getElem i.isLt]
  rfl

/-- After a successful `fit`, the stored decision scores are exactly the
per-row scores of the caller's original matrix, in its original row
order (lines 208–215 recompute the normalized matrix from the unshuffled
`X` before predicting and scoring). -/
theorem fit_scores_eq (train : List ℕ → Matrix → (Row → Row))
    (shuf : Matrix → Matrix) (cfg : Config) (X : Matrix) (n f : ℕ)
    (r : FitResult) (hs : shapeOf X = some (n, f))
    (hfit : fit train shuf cfg X = .ok r) :
    ∃ fs, r.det.fitted = some fs ∧
      fs.decision_scores_ = X.map (scoreRow fs) := by
  obtain ⟨-, -, -, -, fs, hfs, -, hsc, -, -, -, -, hscores⟩ :=
    fit_ok_spec train shuf cfg X n f r hs hfit
  refine ⟨fs, hfs, ?_⟩
  rw [hscores, pdnb_map_self]
  cases hp : cfg.preprocessing with
  | true =>
    have hsc' : fs.scaler_ = some (scalerFit X f) := by
      rw [hsc]
      simp [hp]
    simp only [fitNorm, hp, if_true, List.map_map]
    have hfun : ((fun q => Real.sqrt (rowSqDiff q (fs.netFun q))) ∘
        transRow (scalerFit X f)) = scoreRow fs := by
      funext q
      simp [scoreRow, normRowOf, hsc', Function.comp]
    rw [hfun]
  | false =>
    have hsc' : fs.scaler_ = none := by
      rw [hsc]
      simp [hp]
    simp only [fitNorm, hp, Bool.false_eq_true, if_false]
    have hfun : (fun q => Real.sqrt (rowSqDiff q (fs.netFun q))) =
        scoreRow fs := by
      funext q
      simp [scoreRow, normRowOf, hsc']
    rw [hfun]

/-! ### Claim theorems -/

/-- C4: for every configuration whose `hidden_neurons` list is not a
palindrome (not equal to its own reversal), construction fails with the
symmetry configuration error — before any training data exists, since
`__init__` receives no data — and for every palindromic list this
symmetry check passes (construction never returns the symmetry error). -/
theorem init_symmetry_check (cfg : Config) :
    (cfg.hidden_neurons ≠ cfg.hidden_neurons.reverse →
      init cfg = .error .asymmetric) ∧
    (cfg.hidden_neurons = cfg.hidden_neurons.reverse →
      init cfg ≠ .error .asymmetric) := by
  constructor
  · intro h
    simp [init, h]
  · intro h
    unfold init
    rw [if_neg (fun hne => hne h)]
    by_cases hc : check_parameter cfg.dropout_rate 0 1 <;> simp [hc]

theorem init_symmetry_check_witness :
    init { hidden_neurons := [4, 8], dropout_rate := 1/5,
           preprocessing := true } = .error .asymmetric ∧
    init { hidden_neurons := [4, 4], dropout_rate := 1/5,
           preprocessing := true } ≠ .error .asymmetric :=
  ⟨(init_symmetry_check _).1 (by decide),
   (init_symmetry_check _).2 (by decide)⟩

/-- C3: with any palindromic width list, construction fails for
`dropout_rate = 1.0` and `dropout_rate = -0.1` with the parameter-bound
configuration error, and succeeds for `dropout_rate = 0.0` and
`dropout_rate = 0.99` (the bound is the half-open interval `[0, 1)`). -/
theorem init_dropout_bounds (ws : List ℕ) (pre : Bool)
    (hpal : ws = ws.reverse) :
    init { hidden_neurons := ws, dropout_rate := 1, preprocessing := pre } =
      .error .paramOutOfBounds ∧
    init { hidden_neurons := ws, dropout_rate := -1/10, preprocessing := pre } =
      .error .paramOutOfBounds ∧
    (∃ d, init { hidden_neurons := ws, dropout_rate := 0,
                 preprocessing := pre } = .ok d) ∧
    (∃ d, init { hidden_neurons := ws, dropout_rate := 99/100,
                 preprocessing := pre } = .ok d) := by
  have hcp1 : check_parameter 1 0 1 = false := by
    simp [check_parameter]
  have hcp2 : check_parameter (-1/10) 0 1 = false := by
    simp [check_parameter]
    norm_num
  have hcp3 : check_parameter 0 0 1 = true := by
    simp [check_parameter]
  have hcp4 : check_parameter (99/100) 0 1 = true := by
    simp [check_parameter]
    norm_num
  refine ⟨?_, ?_, ?_, ?_⟩ <;>
    · unfold init
      rw [if_neg (fun hne => hne hpal)]
      simp [hcp1, hcp2, hcp3, hcp4]

theorem init_dropout_bounds_witness :
    [64, 32, 32, 64] = List.reverse [64, 32, 32, 64] ∧
    init { hidden_neurons := [64, 32, 32, 64], dropout_rate := 1,
           preprocessing := true } = .error .paramOutOfBounds :=
  ⟨by decide, (init_dropout_bounds [64, 32, 32, 64] true (by decide)).1⟩

/-- C8: on a freshly constructed detector — one on which no successful
`fit` has completed — the scoring entry point `decision_function` fails
with the not-fitted error, for every input matrix (`check_is_fitted` runs
before any input validation). -/
theorem score_before_fit_fails (cfg : Config) (d : AE) (X : Matrix)
    (hinit : init cfg = .ok d) :
    decision_function d X = .error .notFitted := by
  have hd : d.fitted = none := by
    unfold init at hinit
    split at hinit
    · cases hinit
    · split at hinit
      · cases hinit
      · cases hinit
        rfl
  simp [decision_function, hd]

theorem score_before_fit_fails_witness :
    init cfg22 = .ok ae22 ∧
    decision_function ae22 [[1, 2], [3, 4]] = .error .notFitted := by
  have h : init cfg22 = .ok ae22 := by
    simp only [init, cfg22, ae22, check_parameter]
    norm_num
  exact ⟨h, score_before_fit_fails _ _ _ h⟩

/-- C5: with a valid input matrix of `f` columns, `fit` fails with the
data-incompatibility error exactly when the minimum hidden width exceeds
`f`; when the minimum is at most `f`, `fit` completes without that error
(it returns a fitted result); and construction with such widths succeeds
regardless of any data, since `__init__` performs only the symmetry and
dropout checks. -/
theorem fit_min_width_check (train : List ℕ → Matrix → (Row → Row))
    (shuf : Matrix → Matrix) (cfg : Config) (X : Matrix) (n f : ℕ)
    (hs : shapeOf X = some (n, f)) (hne : cfg.hidden_neurons ≠ []) :
    (npMin cfg.hidden_neurons > f →
      fit train shuf cfg X = .error .minExceedsFeatures) ∧
    (npMin cfg.hidden_neurons ≤ f →
      ∃ r, fit train shuf cfg X = .ok r) ∧
    (cfg.hidden_neurons = cfg.hidden_neurons.reverse →
      check_parameter cfg.dropout_rate 0 1 = true →
      ∃ d, init cfg = .ok d) := by
  have hempty : cfg.hidden_neurons.isEmpty = false := by
    simp [List.isEmpty_iff, hne]
  refine ⟨?_, ?_, ?_⟩
  · intro h
    unfold fit
    rw [hs]
    simp [hempty, h]
  · intro h
    exact fit_ok_of_valid train shuf cfg X n f hs hempty (not_lt.mpr h)
  · intro hpal hcp
    unfold init
    rw [if_neg (fun hx => hx hpal)]
    simp [hcp]

theorem fit_min_width_check_witness :
    fit (fun _ _ => id) id cfgDefault [[(1:ℝ), 2]] =
      .error .minExceedsFeatures ∧
    (∃ r, fit (fun _ _ => id) id cfg22 [[(1:ℝ), 2]] = .ok r) ∧
    (∃ d, init cfgDefault = .ok d) := by
  have h1 := fit_min_width_check (fun _ _ => id) id cfgDefault
    [[(1:ℝ), 2]] 1 2 (by decide) (by decide)
  have h2 := fit_min_width_check (fun _ _ => id) id cfg22
    [[(1:ℝ), 2]] 1 2 (by decide) (by decide)
  refine ⟨h1.1 (by decide), h2.2.1 (by decide), h1.2.2 (by decide) ?_⟩
  simp [cfgDefault, check_parameter]
  norm_num

/-- C2 counterexample: fitting a detector constructed with
`hidden_neurons = [2, 2]` on a 2-column matrix leaves the caller-supplied
width list holding `[2, 2, 2]`: `fit` mutates the caller's list (the
`insert(0, n_features_)` on `hidden_neurons_` acts on the very list the
caller passed, because `__init__` stores it without copying). -/
theorem fit_mutates_caller_widths_cex :
    ((fit (fun _ _ => id) id cfg22 [[(1:ℝ), 2]]).toOption.map
      (fun r => r.callerWidths)) = some [2, 2, 2] ∧
    [2, 2, 2] ≠ cfg22.hidden_neurons := by
  constructor
  · simp +decide [fit, shapeOf, cfg22, npMin]
  · decide

/-- C2 amended: the detector configuration is *not* immutable after
construction: every successful `fit` on an `f`-column matrix mutates the
caller-supplied `hidden_neurons` list in place into `f ::
hidden_neurons`; the effective width list is this same shared list, never
a freshly allocated sequence distinct from the caller's. -/
theorem fit_mutates_caller_widths (train : List ℕ → Matrix → (Row → Row))
    (shuf : Matrix → Matrix) (cfg : Config) (X : Matrix) (n f : ℕ)
    (r : FitResult) (hs : shapeOf X = some (n, f))
    (hfit : fit train shuf cfg X = .ok r) :
    r.callerWidths = f :: cfg.hidden_neurons ∧
    r.callerWidths ≠ cfg.hidden_neurons ∧
    ∃ fs, r.det.fitted = some fs ∧ fs.hidden_neurons_ = r.callerWidths := by
  obtain ⟨-, hw, -, -, fs, hfs, -, -, hhn, -⟩ :=
    fit_ok_spec train shuf cfg X n f r hs hfit
  refine ⟨hw, ?_, fs, hfs, by rw [hhn, hw]⟩
  rw [hw]
  intro h
  have hlen := congrArg List.length h
  simp at hlen

theorem fit_mutates_caller_widths_witness :
    ∃ r, fit (fun _ _ => id) id cfg22 [[(1:ℝ), 2]] = .ok r ∧
      r.callerWidths = 2 :: cfg22.hidden_neurons ∧
      r.callerWidths ≠ cfg22.hidden_neurons := by
  obtain ⟨r, hr⟩ := fit_ok_of_valid (fun _ _ => id) id cfg22
    [[(1:ℝ), 2]] 1 2 (by decide) (by decide) (by decide)
  obtain ⟨h1, h2, -⟩ :=
    fit_mutates_caller_widths (fun _ _ => id) id cfg22
      [[(1:ℝ), 2]] 1 2 r (by decide) hr
  exact ⟨r, hr, h1, h2⟩

/-- C1 (code evaluation at the failing input): fitting widths `[1, 3, 1]`
on a 4-column matrix stores `encoding_dim_ = 2` and
`compression_rate_ = 2`, because line 195 computes the median of
`self.hidden_neurons` *after* the aliased in-place prepend turned it into
`[4, 1, 3, 1]`; the median of the original pre-prepend list `[1, 3, 1]`
is `1`, and `4 // 1 = 4`, so the fitted values diverge from the
spec's `median(hidden_layer_widths)` and
`feature_count // encoding_width`. -/
theorem encoding_dim_from_augmented_list :
    ((fit (fun _ _ => id) id cfg131 [[(1:ℝ), 2, 3, 4]]).toOption.map
      (fun r => r.det.fitted.map
        (fun fs => (fs.encoding_dim_, fs.compression_rate_)))) =
      some (some (2, 2)) ∧
    npMedian cfg131.hidden_neurons = 1 ∧
    ⌊((4:ℚ)) / npMedian cfg131.hidden_neurons⌋ = 4 := by
  refine ⟨?_, ?_, ?_⟩
  · simp +decide [fit, shapeOf, cfg131, npMin]
    refine ⟨_, rfl, _, rfl, ?_⟩
    norm_num [npMedian, sortAsc, insertSorted]
  · norm_num [cfg131, npMedian, sortAsc, insertSorted]
  · norm_num [cfg131, npMedian, sortAsc, insertSorted]

/-- C7: after a successful `fit` on a matrix `X`, the stored
`decision_scores_` have one entry per training row, each score is
nonnegative (in this real-number model every score is automatically a
finite real), and the `i`-th score is the reconstruction score of the
`i`-th row of the caller's original, unshuffled matrix (`scoreRow`
normalizes the row with the fitted scaler state, reconstructs it with the
trained network, and takes the L2 distance). -/
theorem fit_decision_scores_spec (train : List ℕ → Matrix → (Row → Row))
    (shuf : Matrix → Matrix) (cfg : Config) (X : Matrix) (n f : ℕ)
    (r : FitResult) (hs : shapeOf X = some (n, f))
    (hfit : fit train shuf cfg X = .ok r) :
    ∃ fs, r.det.fitted = some fs ∧
      fs.decision_scores_.length = X.length ∧
      ∀ i, i < X.length →
        fs.decision_scores_.getD i 0 = scoreRow fs (X.getD i []) ∧
        0 ≤ fs.decision_scores_.getD i 0 := by
  obtain ⟨fs, hfs, hscores⟩ :=
    fit_scores_eq train shuf cfg X n f r hs hfit
  refine ⟨fs, hfs, by simp [hscores], ?_⟩
  intro i hi
  rw [hscores, getD_map_of_lt X (scoreRow fs) i hi 0 []]
  exact ⟨rfl, Real.sqrt_nonneg _⟩

theorem fit_decision_scores_spec_witness :
    ∃ r, fit (fun _ _ => id) id cfg22 [[(1:ℝ), 2], [(3:ℝ), 4]] = .ok r ∧
      ∃ fs, r.det.fitted = some fs ∧
        fs.decision_scores_.length = 2 ∧
        ∀ i, i < 2 →
          fs.decision_scores_.getD i 0 =
            scoreRow fs ([[(1:ℝ), 2], [(3:ℝ), 4]].getD i []) ∧
          0 ≤ fs.decision_scores_.getD i 0 := by
  obtain ⟨r, hr⟩ := fit_ok_of_valid (fun _ _ => id) id cfg22
    [[(1:ℝ), 2], [(3:ℝ), 4]] 2 2 (by decide) (by decide) (by decide)
  exact ⟨r, hr, fit_decision_scores_spec (fun _ _ => id) id cfg22
    [[(1:ℝ), 2], [(3:ℝ), 4]] 2 2 r (by decide) hr⟩

/-- C6: for every fitted detector and every conforming (non-empty,
rectangular, matching column count) input matrix, `decision_function`
returns one score per input row, where the `i`-th score is the Euclidean
(L2) distance — the square root of the summed squared per-feature
differences (`rowSqDiff`) — between the standardized `i`-th input row and
its network reconstruction, and every score is nonnegative. -/
theorem decision_function_l2_scores (d : AE) (fs : Fitted) (X : Matrix)
    (hfit : d.fitted = some fs) (hne : X ≠ []) (hf : 0 < fs.n_features_)
    (hrect : ∀ q ∈ X, q.length = fs.n_features_) :
    ∃ s, decision_function d X = .ok s ∧ s.length = X.length ∧
      ∀ i, i < X.length →
        s.getD i 0 = Real.sqrt (rowSqDiff (normRowOf fs (X.getD i []))
          (fs.netFun (normRowOf fs (X.getD i [])))) ∧
        0 ≤ s.getD i 0 := by
  have hs := shapeOf_of_rect X fs.n_features_ hne hf hrect
  have hdf := decision_function_eq_map d fs X X.length hfit hs
  refine ⟨_, hdf, by simp, ?_⟩
  intro i hi
  rw [getD_map_of_lt X (scoreRow fs) i hi 0 []]
  exact ⟨rfl, Real.sqrt_nonneg _⟩

theorem decision_function_l2_scores_witness :
    ∃ s, decision_function aeFittedId [[(5:ℝ)]] = .ok s ∧
      s.length = 1 ∧
      ∀ i, i < 1 →
        s.getD i 0 = Real.sqrt (rowSqDiff
          (normRowOf fsId ([[(5:ℝ)]].getD i []))
          (fsId.netFun (normRowOf fsId ([[(5:ℝ)]].getD i [])))) ∧
        0 ≤ s.getD i 0 :=
  decision_function_l2_scores aeFittedId fsId [[(5:ℝ)]] rfl
    (by simp) (by decide)
    (by
      intro q hq
      rw [List.mem_singleton] at hq
      simp [hq, fsId])

/-- C9: scoring is row-order equivariant.  For a fitted detector, a
conforming input matrix `X` and any permutation `σ` of its row positions,
scoring the row-permuted matrix succeeds and its `i`-th score equals the
`σ i`-th score of the original matrix: permuting the input rows permutes
the output scores identically (each row's score depends only on that
row). -/
theorem decision_function_perm_equivariant (d : AE) (fs : Fitted)
    (X : Matrix) (σ : Equiv.Perm (Fin X.length))
    (hfit : d.fitted = some fs) (hne : X ≠ []) (hf : 0 < fs.n_features_)
    (hrect : ∀ q ∈ X, q.length = fs.n_features_) :
    ∃ s s', decision_function d X = .ok s ∧
      decision_function d (List.ofFn (fun i => X.get (σ i))) = .ok s' ∧
      s.length = X.length ∧ s'.length = X.length ∧
      ∀ i : Fin X.length, s'.getD i.1 0 = s.getD (σ i).1 0 := by
  have hs := shapeOf_of_rect X fs.n_features_ hne hf hrect
  have hdf := decision_function_eq_map d fs X X.length hfit hs
  have hlen' : (List.ofFn (fun i => X.get (σ i))).length = X.length :=
    List.length_ofFn _
  have hne' : List.ofFn (fun i => X.get (σ i)) ≠ [] := by
    intro h
    rw [h] at hlen'
    exact hne (List.eq_nil_of_length_eq_zero hlen'.symm)
  have hrect' : ∀ q ∈ List.ofFn (fun i => X.get (σ i)),
      q.length = fs.n_features_ := by
    intro q hq
    rw [List.mem_ofFn] at hq
    obtain ⟨i, hi⟩ := hq
    exact hi ▸ hrect _ (List.get_mem X (σ i).1 (σ i).isLt)
  have hs' := shapeOf_of_rect _ fs.n_features_ hne' hf hrect'
  have hdf' := decision_function_eq_map d fs _ _ hfit hs'
  refine ⟨_, _, hdf, hdf', by simp, by simp, ?_⟩
  intro i
  have hi' : i.1 < (List.ofFn (fun j => X.get (σ j))).length := by
    rw [hlen']
    exact i.isLt
  rw [getD_map_of_lt _ (scoreRow fs) i.1 hi' 0 [],
    getD_map_of_lt X (scoreRow fs) (σ i).1 (σ i).isLt 0 []]
  rw [getD_ofFn (fun j => X.get (σ j)) i, getD_get X (σ i)]

theorem decision_function_perm_equivariant_witness :
    ∃ s s', decision_function aeFittedId [[(5:ℝ)], [(7:ℝ)]] = .ok s ∧
      decision_function aeFittedId
        (List.ofFn (fun i =>
          [[(5:ℝ)], [(7:ℝ)]].get
            ((Equiv.refl (Fin ([[(5:ℝ)], [(7:ℝ)]] : Matrix).length)) i))) =
        .ok s' ∧
      s.length = 2 ∧ s'.length = 2 ∧
      ∀ i : Fin ([[(5:ℝ)], [(7:ℝ)]] : Matrix).length,
        s'.getD i.1 0 =
          s.getD ((Equiv.refl (Fin ([[(5:ℝ)], [(7:ℝ)]] : Matrix).length)) i).1 0 :=
  decision_function_perm_equivariant aeFittedId fsId
    [[(5:ℝ)], [(7:ℝ)]] (Equiv.refl _) rfl (by simp) (by decide)
    (by
      intro q hq
      rw [List.mem_cons, List.mem_singleton] at hq
      rcases hq with hq | hq <;> simp [hq, fsId])

/-- C10: for every `fit` call, the fitted standardizer state is computed
from the caller's original, unshuffled matrix (`scalerFit X`), identically
for any two ambient shuffles; the shuffle is applied only to the freshly
computed normalized matrix (`trainInput = shuf (fitNorm cfg X f)`); and
the caller's input matrix is unchanged after `fit` (`callerX = X`). -/
theorem fit_scaler_preshuffle_no_mutation
    (train : List ℕ → Matrix → (Row → Row)) (shuf₁ shuf₂ : Matrix → Matrix)
    (cfg : Config) (X : Matrix) (n f : ℕ) (r₁ r₂ : FitResult)
    (hs : shapeOf X = some (n, f))
    (h₁ : fit train shuf₁ cfg X = .ok r₁)
    (h₂ : fit train shuf₂ cfg X = .ok r₂) :
    r₁.callerX = X ∧
    r₁.trainInput = shuf₁ (fitNorm cfg X f) ∧
    ∃ fs₁ fs₂, r₁.det.fitted = some fs₁ ∧ r₂.det.fitted = some fs₂ ∧
      fs₁.scaler_ = (if cfg.preprocessing then some (scalerFit X f)
        else none) ∧
      fs₁.scaler_ = fs₂.scaler_ := by
  obtain ⟨hX₁, -, ht₁, -, fs₁, hfs₁, -, hsc₁, -⟩ :=
    fit_ok_spec train shuf₁ cfg X n f r₁ hs h₁
  obtain ⟨-, -, -, -, fs₂, hfs₂, -, hsc₂, -⟩ :=
    fit_ok_spec train shuf₂ cfg X n f r₂ hs h₂
  exact ⟨hX₁, ht₁, fs₁, fs₂, hfs₁, hfs₂, hsc₁, by rw [hsc₁, hsc₂]⟩

theorem fit_scaler_preshuffle_no_mutation_witness :
    ∃ r₁ r₂, fit (fun _ _ => id) id cfg22 [[(1:ℝ), 2], [(3:ℝ), 4]] = .ok r₁ ∧
      fit (fun _ _ => id) List.reverse cfg22 [[(1:ℝ), 2], [(3:ℝ), 4]] =
        .ok r₂ ∧
      r₁.callerX = [[(1:ℝ), 2], [(3:ℝ), 4]] ∧
      r₁.trainInput = fitNorm cfg22 [[(1:ℝ), 2], [(3:ℝ), 4]] 2 ∧
      ∃ fs₁ fs₂, r₁.det.fitted = some fs₁ ∧ r₂.det.fitted = some fs₂ ∧
        fs₁.scaler_ = some (scalerFit [[(1:ℝ), 2], [(3:ℝ), 4]] 2) ∧
        fs₁.scaler_ = fs₂.scaler_ := by
  obtain ⟨r₁, h₁⟩ := fit_ok_of_valid (fun _ _ => id) id cfg22
    [[(1:ℝ), 2], [(3:ℝ), 4]] 2 2 (by decide) (by decide) (by decide)
  obtain ⟨r₂, h₂⟩ := fit_ok_of_valid (fun _ _ => id) List.reverse cfg22
    [[(1:ℝ), 2], [(3:ℝ), 4]] 2 2 (by decide) (by decide) (by decide)
  obtain ⟨hX, ht, fs₁, fs₂, hfs₁, hfs₂, hsc, hsame⟩ :=
    fit_scaler_preshuffle_no_mutation (fun _ _ => id) id List.reverse
      cfg22 [[(1:ℝ), 2], [(3:ℝ), 4]] 2 2 r₁ r₂ (by decide) h₁ h₂
  refine ⟨r₁, r₂, h₁, h₂, hX, ht, fs₁, fs₂, hfs₁, hfs₂, ?_, hsame⟩
  rw [hsc]
  simp [cfg22]

end AutoEncoderModel
